import Mathlib

/-!
Shallow embedding of the inventory/sale consistency engine of `src/app.py`
(a Flask + Firestore point-of-sale backend).

Modelling conventions:
* A Firestore document collection is an association list `Docs α := List (String × α)`
  keyed by document id; `getDoc` is document lookup (first match).
* Firestore transactions are modelled as pure functions `State → Except ApiError State`:
  raising inside a transactional function aborts it, so an `.error` result leaves the
  store unchanged (the HTTP wrapper `record_sale_api` makes this explicit).
* Python floats (prices, `time.time()` timestamps) are modelled as `ℚ`;
  Python ints as `Int`.
* Auto-generated Firestore document ids and the wall clock are passed as
  explicit parameters (`saleId`, `now`).
* The tenant (`uid`) scopes every collection; all operations act within a single
  tenant, so the tenant id is left implicit and `State` holds one tenant's
  `products` and `sales` collections.
-/

namespace POS

deriving instance DecidableEq for Except

/-- Python's `str.upper()` on the ASCII item numbers used as document keys
(written as a structural character map so that it evaluates by kernel
reduction). -/
def strUpper (s : String) : String := ⟨s.data.map Char.toUpper⟩

/-- A Firestore field value, as needed for modelling equality-based queries
(`array_contains` compares whole values; for map values this is exact equality
of all key/value pairs). -/
inductive FsVal where
  | str (s : String)
  | num (q : ℚ)
deriving DecidableEq, Repr

/-- A product document (`users/{uid}/products/{ITEM_NUMBER}`). -/
structure Product where
  item_number : String
  item_name : String
  quantity : Int
  import_price : ℚ
  selling_price : ℚ
deriving DecidableEq, Repr, Inhabited

/-- A line item as supplied by the client in the `POST /api/sales` payload.
`quantity` defaults to 0 in the code (`item.get('quantity', 0)`); `selling_price`
is required (`float(item.get('selling_price'))` raises if absent); a
client-supplied `import_price` may be present but is overwritten by the server. -/
structure LineItemIn where
  item_number : String
  quantity : Int
  selling_price : ℚ
  import_price : Option ℚ := none
deriving DecidableEq, Repr

/-- A stored sale line item, after the server snapshotted `import_price`. -/
structure LineItem where
  item_number : String
  quantity : Int
  selling_price : ℚ
  import_price : ℚ
deriving DecidableEq, Repr

/-- A sale document (`users/{uid}/sales/{saleId}`). -/
structure Sale where
  items : List LineItem
  total_amount : ℚ
  timestamp : ℚ
deriving DecidableEq, Repr

/-- A document collection: association list keyed by document id. -/
abbrev Docs (α : Type) := List (String × α)

/-- One tenant's persisted store state. -/
structure State where
  products : Docs Product
  sales : Docs Sale
deriving DecidableEq, Repr

/-- Errors surfaced by the sale/product endpoints.  `validation` is the 400 on an
empty items list; `notFound`/`insufficientStock` are the `ValueError`s raised inside
`update_in_transaction` (carrying the uppercased item number resp. the product's
`item_name`); `saleNotFound` is the `ValueError` of `restore_stock_and_delete_sale`;
`txFailure` models the Firestore transaction aborting because `transaction.update`
was staged against a nonexistent document. -/
inductive ApiError where
  | validation
  | notFound (item_number : String)
  | insufficientStock (item_name : String)
  | saleNotFound
  | txFailure
deriving DecidableEq, Repr

/-- Document lookup by id (first matching key). -/
def getDoc {α : Type} : Docs α → String → Option α
  | [], _ => none
  | kv :: rest, k => if kv.1 = k then kv.2 else getDoc rest k

/-- Python-dict insertion: replace the value at an existing key in place,
otherwise append.  Models `product_refs_to_update[item_number] = ...`. -/
def dictInsert {α : Type} : Docs α → String → α → Docs α
  | [], k, v => [(k, v)]
  | kv :: rest, k, v => if kv.1 = k then (k, v) :: rest else kv :: dictInsert rest k v

/-- `transaction.update(product_ref, {'quantity': q})`: overwrite the `quantity`
field of the document at key `k` (no-op on ids that do not match). -/
def setQuantity (ps : Docs Product) (k : String) (q : Int) : Docs Product :=
  ps.map (fun kv => if kv.1 = k then (kv.1, { kv.2 with quantity := q }) else kv)

/-- `transaction.update(product_ref, {'quantity': firestore.Increment(d)})`:
atomically add `d` to the `quantity` field of the document at key `k`. -/
def incrementQuantity (ps : Docs Product) (k : String) (d : Int) : Docs Product :=
  ps.map (fun kv => if kv.1 = k then (kv.1, { kv.2 with quantity := kv.2.quantity + d }) else kv)

/-- The uppercased product-document key used for a line item
(`item.get('item_number', '').upper()`). -/
def upperKey (it : LineItemIn) : String := strUpper it.item_number

/-- The stored form of a line item: the client dict with `item['import_price']`
set from the product snapshot (`item_number` is stored verbatim, not uppercased). -/
def storedItem (it : LineItemIn) (p : Product) : LineItem :=
  { item_number := it.item_number, quantity := it.quantity,
    selling_price := it.selling_price, import_price := p.import_price }

/-- Total form of the stored line item for a given product collection
(the `none` branch is unreachable on a successful transaction). -/
def storedOf (ps : Docs Product) (it : LineItemIn) : LineItem :=
  match getDoc ps (upperKey it) with
  | some p => storedItem it p
  | none => storedItem it default

/-- First loop of `update_in_transaction` (src/app.py lines 307-322): for each
line item, read the product snapshot inside the transaction, raise
`Product ... not found.` / `Not enough stock for ...` on a missing product or
`current_quantity < quantity_sold`, stage `new_quantity = current - sold` in the
`product_refs_to_update` dict (later entries for the same key overwrite earlier
ones), and set the line's `import_price` from the snapshot. -/
def saleReadLoop (products : Docs Product) :
    List LineItemIn → List LineItem → Docs Int → Except ApiError (List LineItem × Docs Int)
  | [], out, staged => .ok (out, staged)
  | it :: rest, out, staged =>
    match getDoc products (upperKey it) with
    | none => .error (.notFound (upperKey it))
    | some p =>
      if p.quantity < it.quantity then
        .error (.insufficientStock p.item_name)
      else
        saleReadLoop products rest (out ++ [storedItem it p])
          (dictInsert staged (upperKey it) (p.quantity - it.quantity))

/-- Second loop of `update_in_transaction` (src/app.py lines 324-329): for each
line item, stage `transaction.update` with the quantity recorded in the dict and
accumulate `total_sale_amount += selling_price * quantity`. -/
def saleWriteLoop (staged : Docs Int) :
    List LineItem → Docs Product → ℚ → Docs Product × ℚ
  | [], ps, total => (ps, total)
  | it :: rest, ps, total =>
    let ps2 := match getDoc staged (strUpper it.item_number) with
      | some q => setQuantity ps (strUpper it.item_number) q
      | none => ps
    saleWriteLoop staged rest ps2 (total + it.selling_price * (it.quantity : ℚ))

/-- The transactional body of `POST /api/sales` (src/app.py lines 303-333):
validate and stage all decrements, then commit the product updates together with
one new sale document `{items, total_amount, timestamp}`. -/
def update_in_transaction (st : State) (items : List LineItemIn) (saleId : String)
    (now : ℚ) : Except ApiError State :=
  match saleReadLoop st.products items [] [] with
  | .error e => .error e
  | .ok (stItems, staged) =>
    let res := saleWriteLoop staged stItems st.products 0
    .ok { products := res.1,
          sales := st.sales ++ [(saleId, { items := stItems, total_amount := res.2,
                                           timestamp := now })] }

/-- `record_sale` endpoint (src/app.py lines 295-341): reject an empty items
list with a 400, otherwise run the transaction. -/
def record_sale (st : State) (items : List LineItemIn) (saleId : String) (now : ℚ) :
    Except ApiError State :=
  if items.isEmpty then .error .validation
  else update_in_transaction st items saleId now

/-- The endpoint's observable effect on the store: on any error the transaction
aborted, so the persisted state is unchanged. -/
def record_sale_api (st : State) (items : List LineItemIn) (saleId : String) (now : ℚ) :
    State × Option ApiError :=
  match record_sale st items saleId now with
  | .ok st' => (st', none)
  | .error e => (st, some e)

/-- Restore loop of `restore_stock_and_delete_sale` (src/app.py lines 357-362):
for every stored line item with a truthy (nonempty) `item_number` and
`quantity > 0`, stage an atomic increment on the product document keyed by the
stored `item_number` (verbatim).  Staging an update against a nonexistent
document makes the whole Firestore transaction fail. -/
def restoreLoop : Docs Product → List LineItem → Except ApiError (Docs Product)
  | ps, [] => .ok ps
  | ps, it :: rest =>
    if it.item_number ≠ "" ∧ 0 < it.quantity then
      match getDoc ps it.item_number with
      | none => .error .txFailure
      | some _ => restoreLoop (incrementQuantity ps it.item_number it.quantity) rest
    else restoreLoop ps rest

/-- `DELETE /api/sales/<sale_id>` (src/app.py lines 343-371): inside one
transaction, read the sale (404 if absent), restore stock per line item, and
delete the sale document. -/
def restore_stock_and_delete_sale (st : State) (sale_id : String) :
    Except ApiError State :=
  match getDoc st.sales sale_id with
  | none => .error .saleNotFound
  | some sale =>
    match restoreLoop st.products sale.items with
    | .error e => .error e
    | .ok ps =>
      .ok { products := ps, sales := st.sales.filter (fun kv => kv.1 != sale_id) }

/-- The Firestore map representation of a stored sale line item, as compared by
an `array_contains` filter (all four fields the server always stores). -/
def lineFsMap (it : LineItem) : List (String × FsVal) :=
  [("item_number", .str it.item_number), ("quantity", .num (it.quantity : ℚ)),
   ("selling_price", .num it.selling_price), ("import_price", .num it.import_price)]

/-- Firestore map-value equality: both maps have exactly the same keys with
equal values. -/
def fsMapEq (a b : List (String × FsVal)) : Bool :=
  (a.all (fun kv => decide (getDoc b kv.1 = some kv.2))) &&
    (b.all (fun kv => decide (getDoc a kv.1 = some kv.2)))

/-- The `where(filter=FieldFilter('items', 'array_contains', {'item_number': key}))`
query predicate of `delete_product` (src/app.py line 240): a sale matches iff its
`items` array contains an element equal (as a whole map) to the one-field map
`{'item_number': key}`. -/
def saleMatchesItemNumber (key : String) (s : Sale) : Bool :=
  s.items.any (fun it => fsMapEq (lineFsMap it) [("item_number", .str key)])

/-- `DELETE /api/products/<item_number>` (src/app.py lines 211-250), document
store part only (the best-effort blob deletions do not touch `State`): inside one
transaction, delete every sale matched by the `array_contains` query and the
product document.  Deleting a nonexistent document is a Firestore no-op, and the
code raises no error of its own, so the operation always succeeds. -/
def delete_product (st : State) (item_number : String) : Except ApiError State :=
  let key := strUpper item_number
  .ok { products := st.products.filter (fun kv => kv.1 != key),
        sales := st.sales.filter (fun kv => !(saleMatchesItemNumber key kv.2)) }

/-- `add_update_product` (src/app.py lines 142-208), document part only (image
upload/delete plumbing is out of core scope and `set(..., merge=True)` is
modelled as document overwrite): the document key and the stored `item_number`
field are the uppercased client item number; an empty item number is a 400. -/
def add_update_product (st : State) (item_number : String) (p : Product) :
    Except ApiError State :=
  let key := strUpper item_number
  if key = "" then .error .validation
  else .ok { st with
    products :=
      if (getDoc st.products key).isSome then
        st.products.map (fun kv => if kv.1 = key then (key, { p with item_number := key }) else kv)
      else st.products ++ [(key, { p with item_number := key })] }

/-- Gregorian leap year. -/
def leapYear (y : Nat) : Bool := y % 4 == 0 && (y % 100 != 0 || y % 400 == 0)

/-- Days in a month of the proleptic Gregorian calendar. -/
def daysInMonth (y m : Nat) : Nat :=
  if m = 2 then (if leapYear y then 29 else 28)
  else if m = 4 ∨ m = 6 ∨ m = 9 ∨ m = 11 then 30
  else 31

/-- Days of year `y` strictly before month `m`. -/
def daysBeforeMonth (y : Nat) : Nat → Nat
  | 0 => 0
  | 1 => 0
  | n + 1 => daysBeforeMonth y n + daysInMonth y n

/-- Day count of `y-m-d` from 0001-01-01 (day 0). -/
def daysFromYear1 (y m d : Nat) : Nat :=
  (y - 1) * 365 + (y - 1) / 4 - (y - 1) / 100 + (y - 1) / 400
    + daysBeforeMonth y m + (d - 1)

/-- `datetime(y, m, d).timestamp()` for a naive UTC datetime: epoch seconds at
midnight of `y-m-d` (719162 days from 0001-01-01 to 1970-01-01). -/
def epochYMD (y m d : Nat) : ℚ :=
  (((daysFromYear1 y m d : Int) - 719162 : Int) : ℚ) * 86400

/-- The query filter of `GET /api/sales` (src/app.py lines 260-272): no filter,
a `date=YYYY-MM-DD` day filter, or a `month=YYYY-MM` month filter (already
parsed, as `strptime` does). -/
inductive SalesFilter where
  | all
  | date (y m d : Nat)
  | month (y m : Nat)
deriving DecidableEq, Repr

/-- The half-open timestamp bounds of the month filter, with the code's December
rollover (src/app.py lines 268-271). -/
def monthBounds (y m : Nat) : ℚ × ℚ :=
  let ny := if m = 12 then y + 1 else y
  let nm := if m = 12 then 1 else m + 1
  (epochYMD y m 1, epochYMD ny nm 1)

/-- The profit accumulation of `get_sales` (src/app.py lines 276-286):
`total_profit += (selling_price - import_price) * quantity` over every line item
of every returned sale. -/
def profitFold (l : Docs Sale) : ℚ :=
  l.foldl
    (fun t kv =>
      kv.2.items.foldl
        (fun t2 it => t2 + (it.selling_price - it.import_price) * (it.quantity : ℚ)) t)
    0

/-- `GET /api/sales` (src/app.py lines 253-291): filter by the requested range,
order by `timestamp` descending, and return the sales together with the
recomputed `total_profit`. -/
def get_sales (st : State) (f : SalesFilter) : Docs Sale × ℚ :=
  let filtered := match f with
    | .all => st.sales
    | .date y m d =>
      st.sales.filter (fun kv =>
        decide (epochYMD y m d ≤ kv.2.timestamp ∧ kv.2.timestamp < epochYMD y m d + 86400))
    | .month y m =>
      st.sales.filter (fun kv =>
        decide ((monthBounds y m).1 ≤ kv.2.timestamp ∧ kv.2.timestamp < (monthBounds y m).2))
  let sorted := filtered.insertionSort (fun a b => b.2.timestamp ≤ a.2.timestamp)
  (sorted, profitFold sorted)

/-- The spec's recomputed aggregate, stated independently of the code's fold:
`total_profit = Σ over all returned sales' line items of
(selling_price - import_price) * quantity`. -/
def specTotalProfit (l : Docs Sale) : ℚ :=
  (l.map (fun kv =>
    (kv.2.items.map (fun it => (it.selling_price - it.import_price) * (it.quantity : ℚ))).sum)).sum

/-- The last line item of `items` whose uppercased item number is `k` (the one
whose staged update survives the `product_refs_to_update` dict). -/
def lastTouch : List LineItemIn → String → Option LineItemIn
  | [], _ => none
  | it :: rest, k =>
    match lastTouch rest k with
    | some r => some r
    | none => if upperKey it = k then some it else none

/-- Total requested quantity of all line items of one sale naming product `k`
(the spec's `Σ(quantities sold)` within a sale). -/
def sumReq : List LineItemIn → String → Int
  | [], _ => 0
  | it :: rest, k => (if upperKey it = k then it.quantity else 0) + sumReq rest k

/-- Net quantity restored to product key `k` by the delete-sale loop. -/
def incSum : List LineItem → String → Int
  | [], _ => 0
  | it :: rest, k =>
    (if it.item_number = k ∧ it.item_number ≠ "" ∧ 0 < it.quantity then it.quantity else 0)
      + incSum rest k

/-- A sequence of `record_sale` calls (items, sale id, timestamp per call). -/
def runSales : State → List (List LineItemIn × String × ℚ) → Except ApiError State
  | st, [] => .ok st
  | st, b :: rest =>
    match record_sale st b.1 b.2.1 b.2.2 with
    | .error e => .error e
    | .ok st' => runSales st' rest

/-- Total quantity of product `k` requested across a sequence of sales. -/
def soldTotal : List (List LineItemIn × String × ℚ) → String → Int
  | [], _ => 0
  | b :: rest, k => sumReq b.1 k + soldTotal rest k

/-! ### Basic document-collection lemmas -/

theorem getDoc_dictInsert_self {α : Type} (d : Docs α) (k : String) (v : α) :
    getDoc (dictInsert d k v) k = some v := by
  induction d with
  | nil => simp [dictInsert, getDoc]
  | cons kv rest ih =>
    simp only [dictInsert]
    split_ifs with h
    · simp [getDoc]
    · simp [getDoc, h, ih]

theorem getDoc_dictInsert_ne {α : Type} (d : Docs α) {k k' : String} (v : α)
    (h : k' ≠ k) : getDoc (dictInsert d k v) k' = getDoc d k' := by
  induction d with
  | nil => simp [dictInsert, getDoc, Ne.symm h]
  | cons kv rest ih =>
    simp only [dictInsert]
    split_ifs with hh
    · simp [getDoc, hh, Ne.symm h]
    · simp [getDoc, ih]

theorem getDoc_setQuantity_self (ps : Docs Product) (k : String) (q : Int) :
    getDoc (setQuantity ps k q) k = (getDoc ps k).map (fun p => { p with quantity := q }) := by
  induction ps with
  | nil => rfl
  | cons kv rest ih =>
    simp only [setQuantity, List.map_cons] at *
    split_ifs with h
    · simp [getDoc, h]
    · simp [getDoc, h, ih]

theorem getDoc_setQuantity_ne (ps : Docs Product) {k k' : String} (q : Int)
    (h : k' ≠ k) : getDoc (setQuantity ps k q) k' = getDoc ps k' := by
  induction ps with
  | nil => rfl
  | cons kv rest ih =>
    simp only [setQuantity, List.map_cons] at *
    split_ifs with hh
    · subst hh; simp [getDoc, Ne.symm h, ih]
    · by_cases he : kv.1 = k'
      · simp [getDoc, he]
      · simp [getDoc, he, ih]

theorem getDoc_incrementQuantity_self (ps : Docs Product) (k : String) (d : Int) :
    getDoc (incrementQuantity ps k d) k
      = (getDoc ps k).map (fun p => { p with quantity := p.quantity + d }) := by
  induction ps with
  | nil => rfl
  | cons kv rest ih =>
    simp only [incrementQuantity, List.map_cons] at *
    split_ifs with h
    · simp [getDoc, h]
    · simp [getDoc, h, ih]

theorem getDoc_incrementQuantity_ne (ps : Docs Product) {k k' : String} (d : Int)
    (h : k' ≠ k) : getDoc (incrementQuantity ps k d) k' = getDoc ps k' := by
  induction ps with
  | nil => rfl
  | cons kv rest ih =>
    simp only [incrementQuantity, List.map_cons] at *
    split_ifs with hh
    · subst hh; simp [getDoc, Ne.symm h, ih]
    · by_cases he : kv.1 = k'
      · simp [getDoc, he]
      · simp [getDoc, he, ih]

theorem getDoc_incrementQuantity_isSome (ps : Docs Product) (k k' : String) (d : Int) :
    (getDoc (incrementQuantity ps k d) k').isSome = (getDoc ps k').isSome := by
  by_cases h : k' = k
  · subst h; rw [getDoc_incrementQuantity_self]; cases getDoc ps k' <;> rfl
  · rw [getDoc_incrementQuantity_ne ps d h]

theorem getDoc_eq_none_iff {α : Type} (l : Docs α) (k : String) :
    getDoc l k = none ↔ ∀ kv ∈ l, kv.1 ≠ k := by
  induction l with
  | nil => simp [getDoc]
  | cons kv rest ih =>
    by_cases h : kv.1 = k
    · simp [getDoc, h]
    · simp [getDoc, h, ih]

theorem getDoc_append_of_none {α : Type} {a : Docs α} (b : Docs α) {k : String}
    (h : getDoc a k = none) : getDoc (a ++ b) k = getDoc b k := by
  induction a with
  | nil => simp
  | cons kv rest ih =>
    by_cases hh : kv.1 = k
    · simp [getDoc, hh] at h
    · simp only [getDoc, hh, if_neg hh, List.cons_append] at *
      exact ih h

theorem filter_bne_of_getDoc_none {α : Type} {l : Docs α} {i : String}
    (h : getDoc l i = none) : l.filter (fun kv => kv.1 != i) = l := by
  rw [List.filter_eq_self]
  intro kv hkv
  simpa using ((getDoc_eq_none_iff l i).1 h) kv hkv

/-! ### `lastTouch` / `sumReq` lemmas -/

theorem lastTouch_some_mem {items : List LineItemIn} {k : String} {itL : LineItemIn}
    (h : lastTouch items k = some itL) : itL ∈ items ∧ upperKey itL = k := by
  induction items with
  | nil => simp [lastTouch] at h
  | cons it rest ih =>
    simp only [lastTouch] at h
    cases hr : lastTouch rest k with
    | some r =>
      rw [hr] at h
      injection h with h
      subst h
      obtain ⟨hm, hu⟩ := ih hr
      exact ⟨List.mem_cons_of_mem _ hm, hu⟩
    | none =>
      rw [hr] at h
      split_ifs at h with hk
      cases h; exact ⟨List.mem_cons_self _ _, hk⟩

theorem lastTouch_eq_none_iff (items : List LineItemIn) (k : String) :
    lastTouch items k = none ↔ ∀ it ∈ items, upperKey it ≠ k := by
  induction items with
  | nil => simp [lastTouch]
  | cons it rest ih =>
    simp only [lastTouch]
    cases hr : lastTouch rest k with
    | some r =>
      obtain ⟨hm, hu⟩ := lastTouch_some_mem hr
      constructor
      · intro h; exact absurd h (by simp)
      · intro h; exact absurd hu (h r (List.mem_cons_of_mem _ hm))
    | none =>
      by_cases hk : upperKey it = k
      · simp only [hk, if_pos rfl]
        constructor
        · intro h; exact absurd h (by simp)
        · intro h; exact absurd hk (h it (List.mem_cons_self _ _))
      · simp only [if_neg hk]
        constructor
        · intro _ it' hit'
          rcases List.mem_cons.mp hit' with h1 | h2
          · subst h1; exact hk
          · exact (ih.mp hr) it' h2
        · intro _; trivial

/-! ### `saleReadLoop` characterization -/

theorem storedOf_item_number (ps : Docs Product) (it : LineItemIn) :
    (storedOf ps it).item_number = it.item_number := by
  unfold storedOf
  cases getDoc ps (upperKey it) <;> rfl

theorem storedOf_quantity (ps : Docs Product) (it : LineItemIn) :
    (storedOf ps it).quantity = it.quantity := by
  unfold storedOf
  cases getDoc ps (upperKey it) <;> rfl

theorem saleReadLoop_ok_items {ps : Docs Product} :
    ∀ {items : List LineItemIn} {out out' : List LineItem} {staged staged' : Docs Int},
      saleReadLoop ps items out staged = .ok (out', staged') →
      out' = out ++ items.map (storedOf ps) := by
  intro items
  induction items with
  | nil =>
    intro out out' staged staged' h
    simp only [saleReadLoop, Except.ok.injEq, Prod.mk.injEq] at h
    simp [← h.1]
  | cons it rest ih =>
    intro out out' staged staged' h
    cases hp : getDoc ps (upperKey it) with
    | none => simp [saleReadLoop, hp] at h
    | some p =>
      by_cases hq : p.quantity < it.quantity
      · simp [saleReadLoop, hp, hq] at h
      · simp only [saleReadLoop, hp, if_neg hq] at h
        rw [ih h]
        simp [storedOf, hp]

theorem saleReadLoop_ok_staged_none {ps : Docs Product} {k : String} :
    ∀ {items : List LineItemIn} {out out' : List LineItem} {staged staged' : Docs Int},
      saleReadLoop ps items out staged = .ok (out', staged') →
      lastTouch items k = none →
      getDoc staged' k = getDoc staged k := by
  intro items
  induction items with
  | nil =>
    intro out out' staged staged' h _
    simp only [saleReadLoop, Except.ok.injEq, Prod.mk.injEq] at h
    rw [← h.2]
  | cons it rest ih =>
    intro out out' staged staged' h hk
    cases hp : getDoc ps (upperKey it) with
    | none => simp [saleReadLoop, hp] at h
    | some p =>
      by_cases hq : p.quantity < it.quantity
      · simp [saleReadLoop, hp, hq] at h
      · simp only [saleReadLoop, hp, if_neg hq] at h
        have hrest : lastTouch rest k = none ∧ upperKey it ≠ k := by
          cases hr : lastTouch rest k with
          | some r =>
            simp only [lastTouch, hr] at hk
            exact absurd hk (by simp)
          | none =>
            simp only [lastTouch, hr] at hk
            split_ifs at hk with hik
            exact ⟨rfl, hik⟩
        rw [ih h hrest.1]
        exact getDoc_dictInsert_ne _ _ (Ne.symm hrest.2)

theorem saleReadLoop_ok_staged_some {ps : Docs Product} {k : String} {itL : LineItemIn} :
    ∀ {items : List LineItemIn} {out out' : List LineItem} {staged staged' : Docs Int},
      saleReadLoop ps items out staged = .ok (out', staged') →
      lastTouch items k = some itL →
      ∃ p, getDoc ps k = some p ∧ getDoc staged' k = some (p.quantity - itL.quantity) := by
  intro items
  induction items with
  | nil => intro out out' staged staged' _ hk; simp [lastTouch] at hk
  | cons it rest ih =>
    intro out out' staged staged' h hk
    cases hp : getDoc ps (upperKey it) with
    | none => simp [saleReadLoop, hp] at h
    | some p =>
      by_cases hq : p.quantity < it.quantity
      · simp [saleReadLoop, hp, hq] at h
      · simp only [saleReadLoop, hp, if_neg hq] at h
        cases hr : lastTouch rest k with
        | some r =>
          simp only [lastTouch, hr, Option.some.injEq] at hk
          subst hk
          exact ih h hr
        | none =>
          simp only [lastTouch, hr] at hk
          split_ifs at hk with hik
          injection hk with hk
          subst hk
          subst hik
          refine ⟨p, hp, ?_⟩
          rw [saleReadLoop_ok_staged_none h hr]
          exact getDoc_dictInsert_self _ _ _

theorem saleReadLoop_ok_valid {ps : Docs Product} :
    ∀ {items : List LineItemIn} {out out' : List LineItem} {staged staged' : Docs Int},
      saleReadLoop ps items out staged = .ok (out', staged') →
      ∀ it ∈ items, ∃ p, getDoc ps (upperKey it) = some p ∧ ¬ p.quantity < it.quantity := by
  intro items
  induction items with
  | nil => intro _ _ _ _ _ it hit; simp at hit
  | cons it0 rest ih =>
    intro out out' staged staged' h it hit
    cases hp : getDoc ps (upperKey it0) with
    | none => simp [saleReadLoop, hp] at h
    | some p =>
      by_cases hq : p.quantity < it0.quantity
      · simp [saleReadLoop, hp, hq] at h
      · simp only [saleReadLoop, hp, if_neg hq] at h
        rcases List.mem_cons.mp hit with h1 | h2
        · subst h1; exact ⟨p, hp, hq⟩
        · exact ih h it h2

theorem saleReadLoop_total {ps : Docs Product} :
    ∀ {items : List LineItemIn} (out : List LineItem) (staged : Docs Int),
      (∀ it ∈ items, ∃ p, getDoc ps (upperKey it) = some p ∧ ¬ p.quantity < it.quantity) →
      ∃ r, saleReadLoop ps items out staged = .ok r := by
  intro items
  induction items with
  | nil => intro out staged _; exact ⟨(out, staged), rfl⟩
  | cons it rest ih =>
    intro out staged hv
    obtain ⟨p, hp, hq⟩ := hv it (List.mem_cons_self _ _)
    obtain ⟨r, hr⟩ := ih (out ++ [storedItem it p])
      (dictInsert staged (upperKey it) (p.quantity - it.quantity))
      (fun it' hit' => hv it' (List.mem_cons_of_mem _ hit'))
    exact ⟨r, by simp only [saleReadLoop, hp, if_neg hq]; exact hr⟩

theorem saleReadLoop_error {ps : Docs Product} :
    ∀ {items : List LineItemIn} {out : List LineItem} {staged : Docs Int} {e : ApiError},
      saleReadLoop ps items out staged = .error e →
      ∃ it ∈ items,
        (e = .notFound (upperKey it) ∧ getDoc ps (upperKey it) = none) ∨
        ∃ p, getDoc ps (upperKey it) = some p ∧ p.quantity < it.quantity ∧
          e = .insufficientStock p.item_name := by
  intro items
  induction items with
  | nil => intro _ _ _ h; simp [saleReadLoop] at h
  | cons it rest ih =>
    intro out staged e h
    cases hp : getDoc ps (upperKey it) with
    | none =>
      simp only [saleReadLoop, hp, Except.error.injEq] at h
      exact ⟨it, List.mem_cons_self _ _, Or.inl ⟨h.symm, hp⟩⟩
    | some p =>
      by_cases hq : p.quantity < it.quantity
      · simp only [saleReadLoop, hp, if_pos hq, Except.error.injEq] at h
        exact ⟨it, List.mem_cons_self _ _, Or.inr ⟨p, hp, hq, h.symm⟩⟩
      · simp only [saleReadLoop, hp, if_neg hq] at h
        obtain ⟨it', hit', hcase⟩ := ih h
        exact ⟨it', List.mem_cons_of_mem _ hit', hcase⟩

/-! ### `saleWriteLoop` characterization -/

theorem saleWriteLoop_fst_untouched {staged : Docs Int} {k : String} :
    ∀ (sItems : List LineItem) (ps : Docs Product) (t : ℚ),
      (∀ it ∈ sItems, strUpper it.item_number ≠ k) →
      getDoc (saleWriteLoop staged sItems ps t).1 k = getDoc ps k := by
  intro sItems
  induction sItems with
  | nil => intro ps t _; rfl
  | cons it rest ih =>
    intro ps t hne
    show getDoc (saleWriteLoop staged rest _ _).1 k = getDoc ps k
    rw [ih _ _ (fun it' hit' => hne it' (List.mem_cons_of_mem _ hit'))]
    have hk : k ≠ strUpper it.item_number := Ne.symm (hne it (List.mem_cons_self _ _))
    cases hs : getDoc staged (strUpper it.item_number) with
    | none => simp [hs]
    | some q => simp only [hs]; exact getDoc_setQuantity_ne ps q hk

theorem saleWriteLoop_fst_touched {staged : Docs Int} {k : String} {q : Int}
    (hs : getDoc staged k = some q) :
    ∀ (sItems : List LineItem) (ps : Docs Product) (t : ℚ),
      (∃ it ∈ sItems, strUpper it.item_number = k) →
      getDoc (saleWriteLoop staged sItems ps t).1 k
        = (getDoc ps k).map (fun p => { p with quantity := q }) := by
  intro sItems
  induction sItems with
  | nil => intro ps t hex; simp at hex
  | cons it rest ih =>
    intro ps t hex
    show getDoc (saleWriteLoop staged rest _ _).1 k = _
    by_cases hk : strUpper it.item_number = k
    · rw [hk, hs]
      by_cases hrest : ∃ it' ∈ rest, strUpper it'.item_number = k
      · rw [ih _ _ hrest, getDoc_setQuantity_self]
        cases getDoc ps k <;> rfl
      · push_neg at hrest
        rw [saleWriteLoop_fst_untouched rest _ _ hrest, getDoc_setQuantity_self]
    · obtain ⟨w, hw, hwk⟩ := hex
      rcases List.mem_cons.mp hw with h1 | h2
      · subst h1; exact absurd hwk hk
      · have hps2 : getDoc (match getDoc staged (strUpper it.item_number) with
            | some q0 => setQuantity ps (strUpper it.item_number) q0
            | none => ps) k = getDoc ps k := by
          cases hs0 : getDoc staged (strUpper it.item_number) with
          | none => rfl
          | some q0 => exact getDoc_setQuantity_ne ps q0 (Ne.symm hk)
        rw [ih _ _ ⟨w, h2, hwk⟩, hps2]

/-! ### `record_sale` characterization -/

theorem update_in_transaction_ok_eq {st : State} {items : List LineItemIn}
    {saleId : String} {now : ℚ} {stItems : List LineItem} {staged : Docs Int}
    (hr : saleReadLoop st.products items [] [] = .ok (stItems, staged)) :
    update_in_transaction st items saleId now =
      .ok ⟨(saleWriteLoop staged stItems st.products 0).1,
           st.sales ++ [(saleId,
             ⟨stItems, (saleWriteLoop staged stItems st.products 0).2, now⟩)]⟩ := by
  unfold update_in_transaction
  rw [hr]

theorem update_in_transaction_error_eq {st : State} {items : List LineItemIn}
    {saleId : String} {now : ℚ} {e : ApiError}
    (hr : saleReadLoop st.products items [] [] = .error e) :
    update_in_transaction st items saleId now = .error e := by
  unfold update_in_transaction
  rw [hr]

theorem record_sale_empty_eq (st : State) (saleId : String) (now : ℚ) :
    record_sale st [] saleId now = .error .validation := rfl

theorem record_sale_nonempty_eq {items : List LineItemIn} (st : State)
    (saleId : String) (now : ℚ) (hne : items ≠ []) :
    record_sale st items saleId now = update_in_transaction st items saleId now := by
  have hemp : items.isEmpty = false := by
    cases items with
    | nil => exact absurd rfl hne
    | cons a l => rfl
  unfold record_sale
  rw [hemp]
  rfl

theorem record_sale_ok_ne_nil {st : State} {items : List LineItemIn} {saleId : String}
    {now : ℚ} {st' : State} (h : record_sale st items saleId now = .ok st') :
    items ≠ [] := by
  intro he
  subst he
  rw [record_sale_empty_eq] at h
  exact absurd h (by simp)

theorem record_sale_ok_products {st : State} {items : List LineItemIn} {saleId : String}
    {now : ℚ} {st' : State} (h : record_sale st items saleId now = .ok st') (k : String) :
    getDoc st'.products k =
      match lastTouch items k with
      | some itL => (getDoc st.products k).map
          (fun p => { p with quantity := p.quantity - itL.quantity })
      | none => getDoc st.products k := by
  rw [record_sale_nonempty_eq st saleId now (record_sale_ok_ne_nil h)] at h
  cases hr : saleReadLoop st.products items [] [] with
  | error e =>
    rw [update_in_transaction_error_eq hr] at h
    exact absurd h (by simp)
  | ok pr =>
    obtain ⟨stItems, staged⟩ := pr
    rw [update_in_transaction_ok_eq hr] at h
    injection h with h
    subst h
    have hitems : stItems = items.map (storedOf st.products) := by
      simpa using saleReadLoop_ok_items hr
    cases hlt : lastTouch items k with
    | none =>
      apply saleWriteLoop_fst_untouched
      intro sit hsit
      rw [hitems] at hsit
      obtain ⟨it0, hit0, rfl⟩ := List.mem_map.mp hsit
      rw [storedOf_item_number]
      exact (lastTouch_eq_none_iff items k).mp hlt it0 hit0
    | some itL =>
      obtain ⟨p, hp, hstg⟩ := saleReadLoop_ok_staged_some hr hlt
      rw [saleWriteLoop_fst_touched hstg stItems st.products 0 ?_]
      · simp [hp]
      · obtain ⟨hm, hu⟩ := lastTouch_some_mem hlt
        refine ⟨storedOf st.products itL, ?_, ?_⟩
        · rw [hitems]; exact List.mem_map.mpr ⟨itL, hm, rfl⟩
        · rw [storedOf_item_number]; exact hu

theorem record_sale_ok_sales {st : State} {items : List LineItemIn} {saleId : String}
    {now : ℚ} {st' : State} (h : record_sale st items saleId now = .ok st') :
    ∃ t, st'.sales = st.sales ++ [(saleId,
      { items := items.map (storedOf st.products), total_amount := t, timestamp := now })] := by
  rw [record_sale_nonempty_eq st saleId now (record_sale_ok_ne_nil h)] at h
  cases hr : saleReadLoop st.products items [] [] with
  | error e =>
    rw [update_in_transaction_error_eq hr] at h
    exact absurd h (by simp)
  | ok pr =>
    obtain ⟨stItems, staged⟩ := pr
    rw [update_in_transaction_ok_eq hr] at h
    injection h with h
    subst h
    have hitems : stItems = items.map (storedOf st.products) := by
      simpa using saleReadLoop_ok_items hr
    exact ⟨(saleWriteLoop staged stItems st.products 0).2, by rw [← hitems]⟩

theorem record_sale_ok_valid {st : State} {items : List LineItemIn} {saleId : String}
    {now : ℚ} {st' : State} (h : record_sale st items saleId now = .ok st') :
    ∀ it ∈ items, ∃ p, getDoc st.products (upperKey it) = some p ∧
      ¬ p.quantity < it.quantity := by
  rw [record_sale_nonempty_eq st saleId now (record_sale_ok_ne_nil h)] at h
  cases hr : saleReadLoop st.products items [] [] with
  | error e =>
    rw [update_in_transaction_error_eq hr] at h
    exact absurd h (by simp)
  | ok pr =>
    obtain ⟨stItems, staged⟩ := pr
    exact saleReadLoop_ok_valid hr

theorem record_sale_ok_of_valid {st : State} {items : List LineItemIn}
    (saleId : String) (now : ℚ) (hne : items ≠ [])
    (hv : ∀ it ∈ items, ∃ p, getDoc st.products (upperKey it) = some p ∧
      ¬ p.quantity < it.quantity) :
    ∃ st', record_sale st items saleId now = .ok st' := by
  rw [record_sale_nonempty_eq st saleId now hne]
  obtain ⟨r, hr⟩ := saleReadLoop_total [] [] hv
  obtain ⟨stItems, staged⟩ := r
  exact ⟨_, update_in_transaction_ok_eq hr⟩

theorem record_sale_error_cases {st : State} {items : List LineItemIn} {saleId : String}
    {now : ℚ} {e : ApiError} (h : record_sale st items saleId now = .error e)
    (hne : items ≠ []) :
    ∃ it ∈ items,
      (e = .notFound (upperKey it) ∧ getDoc st.products (upperKey it) = none) ∨
      ∃ p, getDoc st.products (upperKey it) = some p ∧ p.quantity < it.quantity ∧
        e = .insufficientStock p.item_name := by
  rw [record_sale_nonempty_eq st saleId now hne] at h
  cases hr : saleReadLoop st.products items [] [] with
  | error e0 =>
    rw [update_in_transaction_error_eq hr] at h
    injection h with h
    subst h
    exact saleReadLoop_error hr
  | ok pr =>
    obtain ⟨stItems, staged⟩ := pr
    rw [update_in_transaction_ok_eq hr] at h
    exact absurd h (by simp)

/-! ### `restoreLoop` characterization -/

theorem restoreLoop_ok_getDoc :
    ∀ {sitems : List LineItem} {ps ps' : Docs Product},
      restoreLoop ps sitems = .ok ps' →
      ∀ k, getDoc ps' k = (getDoc ps k).map
        (fun p => { p with quantity := p.quantity + incSum sitems k }) := by
  intro sitems
  induction sitems with
  | nil =>
    intro ps ps' h k
    simp only [restoreLoop, Except.ok.injEq] at h
    subst h
    rw [show incSum [] k = 0 from rfl]
    cases hg : getDoc ps k with
    | none => rfl
    | some p => simp
  | cons it rest ih =>
    intro ps ps' h k
    by_cases hc : it.item_number ≠ "" ∧ 0 < it.quantity
    · cases hg : getDoc ps it.item_number with
      | none => simp [restoreLoop, if_pos hc, hg] at h
      | some p =>
        simp only [restoreLoop, if_pos hc, hg] at h
        rw [ih h k]
        by_cases hk : it.item_number = k
        · subst hk
          rw [getDoc_incrementQuantity_self,
            show incSum (it :: rest) it.item_number = it.quantity + incSum rest it.item_number
              from by simp [incSum, hc]]
          cases getDoc ps it.item_number with
          | none => rfl
          | some p0 =>
            simp only [Option.map, Option.bind]
            simp [Product.mk.injEq]
            omega
        · rw [getDoc_incrementQuantity_ne ps it.quantity (Ne.symm hk),
            show incSum (it :: rest) k = incSum rest k
              from by simp only [incSum, if_neg (fun hcon : _ ∧ _ => hk hcon.1)]; omega]
    · simp only [restoreLoop, if_neg hc] at h
      rw [ih h k,
        show incSum (it :: rest) k = incSum rest k
          from by simp only [incSum, if_neg (fun hcon : _ ∧ _ => hc hcon.2)]; omega]

theorem restoreLoop_total :
    ∀ {sitems : List LineItem} {ps : Docs Product},
      (∀ it ∈ sitems, it.item_number ≠ "" ∧ 0 < it.quantity →
        (getDoc ps it.item_number).isSome) →
      ∃ ps', restoreLoop ps sitems = .ok ps' := by
  intro sitems
  induction sitems with
  | nil => intro ps _; exact ⟨ps, rfl⟩
  | cons it rest ih =>
    intro ps hv
    by_cases hc : it.item_number ≠ "" ∧ 0 < it.quantity
    · have hs := hv it (List.mem_cons_self _ _) hc
      cases hg : getDoc ps it.item_number with
      | none => rw [hg] at hs; simp at hs
      | some p =>
        obtain ⟨ps', hps'⟩ := @ih (incrementQuantity ps it.item_number it.quantity)
          (fun it' hit' hc' => by
            rw [getDoc_incrementQuantity_isSome]
            exact hv it' (List.mem_cons_of_mem _ hit') hc')
        exact ⟨ps', by simp only [restoreLoop, if_pos hc, hg]; exact hps'⟩
    · obtain ⟨ps', hps'⟩ := ih (fun it' hit' hc' => hv it' (List.mem_cons_of_mem _ hit') hc')
      exact ⟨ps', by simp only [restoreLoop, if_neg hc]; exact hps'⟩

/-! ### Per-sale sums under distinct keys; sequences of sales -/

theorem sumReq_eq_zero_of_no_touch {k : String} :
    ∀ {items : List LineItemIn}, (∀ it ∈ items, upperKey it ≠ k) →
      sumReq items k = 0 := by
  intro items
  induction items with
  | nil => intro _; rfl
  | cons it rest ih =>
    intro h
    rw [show sumReq (it :: rest) k = (if upperKey it = k then it.quantity else 0) + sumReq rest k
        from rfl,
      if_neg (h it (List.mem_cons_self _ _)),
      ih (fun it' hit' => h it' (List.mem_cons_of_mem _ hit'))]
    omega

theorem sumReq_of_lastTouch_some_nodup {k : String} {itL : LineItemIn} :
    ∀ {items : List LineItemIn}, (items.map upperKey).Nodup →
      lastTouch items k = some itL → sumReq items k = itL.quantity := by
  intro items
  induction items with
  | nil => intro _ hlt; simp [lastTouch] at hlt
  | cons it rest ih =>
    intro hND hlt
    have hnd : (∀ x ∈ rest, ¬ upperKey x = upperKey it) ∧ (rest.map upperKey).Nodup := by
      simpa using hND
    cases hr : lastTouch rest k with
    | some r =>
      simp only [lastTouch, hr, Option.some.injEq] at hlt
      subst hlt
      obtain ⟨hm, hu⟩ := lastTouch_some_mem hr
      have hik : upperKey it ≠ k := by
        intro hik
        exact (hnd.1 r hm) (by rw [hu, hik])
      rw [show sumReq (it :: rest) k
          = (if upperKey it = k then it.quantity else 0) + sumReq rest k from rfl,
        if_neg hik, ih hnd.2 hr]
      omega
    | none =>
      simp only [lastTouch, hr] at hlt
      split_ifs at hlt with hik
      injection hlt with hlt
      subst hlt
      rw [show sumReq (it :: rest) k
          = (if upperKey it = k then it.quantity else 0) + sumReq rest k from rfl,
        if_pos hik,
        sumReq_eq_zero_of_no_touch ((lastTouch_eq_none_iff rest k).mp hr)]
      omega

theorem record_sale_ok_products_nodup {st : State} {items : List LineItemIn}
    {saleId : String} {now : ℚ} {st' : State}
    (h : record_sale st items saleId now = .ok st')
    (hND : (items.map upperKey).Nodup) (k : String) :
    getDoc st'.products k = (getDoc st.products k).map
      (fun p => { p with quantity := p.quantity - sumReq items k }) := by
  rw [record_sale_ok_products h k]
  cases hlt : lastTouch items k with
  | none =>
    rw [sumReq_eq_zero_of_no_touch ((lastTouch_eq_none_iff items k).mp hlt)]
    cases getDoc st.products k with
    | none => rfl
    | some p => simp
  | some itL =>
    rw [sumReq_of_lastTouch_some_nodup hND hlt]

theorem runSales_ok_products :
    ∀ {batches : List (List LineItemIn × String × ℚ)} {st st' : State},
      runSales st batches = .ok st' →
      (∀ b ∈ batches, (b.1.map upperKey).Nodup) →
      ∀ k, getDoc st'.products k = (getDoc st.products k).map
        (fun p => { p with quantity := p.quantity - soldTotal batches k }) := by
  intro batches
  induction batches with
  | nil =>
    intro st st' h _ k
    simp only [runSales, Except.ok.injEq] at h
    subst h
    rw [show soldTotal [] k = 0 from rfl]
    cases hg : getDoc st.products k with
    | none => rfl
    | some p => simp
  | cons b rest ih =>
    intro st st' h hND k
    cases hr : record_sale st b.1 b.2.1 b.2.2 with
    | error e => simp [runSales, hr] at h
    | ok st1 =>
      simp only [runSales, hr] at h
      rw [ih h (fun b' hb' => hND b' (List.mem_cons_of_mem _ hb')) k,
        record_sale_ok_products_nodup hr (hND b (List.mem_cons_self _ _)) k,
        show soldTotal (b :: rest) k = sumReq b.1 k + soldTotal rest k from rfl]
      cases getDoc st.products k with
      | none => rfl
      | some p =>
        simp [Product.mk.injEq]
        omega

/-- Under the round-trip side conditions, the quantity restored by the delete
loop to each product key equals the quantity the sale requested for it. -/
theorem incSum_storedOf {ps : Docs Product} {k : String} :
    ∀ {items : List LineItemIn},
      (∀ it ∈ items, strUpper it.item_number = it.item_number ∧ it.item_number ≠ "" ∧
        0 < it.quantity) →
      incSum (items.map (storedOf ps)) k = sumReq items k := by
  intro items
  induction items with
  | nil => intro _; rfl
  | cons it rest ih =>
    intro hc
    obtain ⟨hup, hne, hpos⟩ := hc it (List.mem_cons_self _ _)
    have htail := ih (fun it' hit' => hc it' (List.mem_cons_of_mem _ hit'))
    rw [List.map_cons,
      show incSum (storedOf ps it :: rest.map (storedOf ps)) k
        = (if (storedOf ps it).item_number = k ∧ (storedOf ps it).item_number ≠ "" ∧
            0 < (storedOf ps it).quantity then (storedOf ps it).quantity else 0)
          + incSum (rest.map (storedOf ps)) k from rfl,
      show sumReq (it :: rest) k
        = (if upperKey it = k then it.quantity else 0) + sumReq rest k from rfl,
      htail, storedOf_item_number, storedOf_quantity]
    by_cases hk : it.item_number = k
    · rw [if_pos ⟨hk, hne, hpos⟩, if_pos (by rw [upperKey, hup]; exact hk)]
    · rw [if_neg (fun hcon => hk hcon.1), if_neg (by rw [upperKey, hup]; exact hk)]

/-! ### `delete_product` facts -/

theorem saleMatchesItemNumber_eq_false (key : String) (s : Sale) :
    saleMatchesItemNumber key s = false := by
  unfold saleMatchesItemNumber
  rw [List.any_eq_false]
  intro it _
  simp [fsMapEq, lineFsMap, getDoc]

theorem delete_product_eq (st : State) (n : String) :
    delete_product st n
      = .ok ⟨st.products.filter (fun kv => kv.1 != strUpper n), st.sales⟩ := by
  have hall : ∀ kv ∈ st.sales, (!(saleMatchesItemNumber (strUpper n) kv.2)) = true := by
    intro kv _
    rw [saleMatchesItemNumber_eq_false]
    rfl
  simp only [delete_product]
  rw [List.filter_eq_self.mpr hall]

theorem getDoc_filter_self {α : Type} (l : Docs α) (k : String) :
    getDoc (l.filter (fun kv => kv.1 != k)) k = none := by
  induction l with
  | nil => rfl
  | cons kv rest ih =>
    by_cases h : kv.1 = k
    · simp [List.filter_cons, h, ih]
    · simp [List.filter_cons, h, getDoc, ih]

/-! ### `get_sales` facts -/

theorem itemsProfit_foldl (items : List LineItem) : ∀ t : ℚ,
    items.foldl
        (fun t2 it => t2 + (it.selling_price - it.import_price) * (it.quantity : ℚ)) t
      = t + (items.map
          (fun it => (it.selling_price - it.import_price) * (it.quantity : ℚ))).sum := by
  induction items with
  | nil => intro t; simp
  | cons it rest ih =>
    intro t
    simp only [List.foldl_cons, ih, List.map_cons, List.sum_cons]
    ring

theorem profitFold_general : ∀ (l : Docs Sale) (t : ℚ),
    l.foldl
        (fun t kv => kv.2.items.foldl
          (fun t2 it => t2 + (it.selling_price - it.import_price) * (it.quantity : ℚ)) t) t
      = t + specTotalProfit l := by
  intro l
  induction l with
  | nil => intro t; simp [specTotalProfit]
  | cons kv rest ih =>
    intro t
    rw [List.foldl_cons, ih, itemsProfit_foldl]
    simp only [specTotalProfit, List.map_cons, List.sum_cons]
    ring

theorem profitFold_eq_spec (l : Docs Sale) : profitFold l = specTotalProfit l := by
  unfold profitFold
  rw [profitFold_general]
  ring

/-! ### `restore_stock_and_delete_sale` equations -/

theorem restore_eq_of_found {st : State} {sale_id : String} {sale : Sale}
    {ps2 : Docs Product} (hs : getDoc st.sales sale_id = some sale)
    (hr : restoreLoop st.products sale.items = .ok ps2) :
    restore_stock_and_delete_sale st sale_id
      = .ok ⟨ps2, st.sales.filter (fun kv => kv.1 != sale_id)⟩ := by
  simp only [restore_stock_and_delete_sale, hs, hr]

theorem restore_eq_of_loop_error {st : State} {sale_id : String} {sale : Sale}
    {e : ApiError} (hs : getDoc st.sales sale_id = some sale)
    (hr : restoreLoop st.products sale.items = .error e) :
    restore_stock_and_delete_sale st sale_id = .error e := by
  simp only [restore_stock_and_delete_sale, hs, hr]

/-! ### `get_sales` month filter membership -/

theorem get_sales_month_mem (st : State) (y m : Nat) (kv : String × Sale) :
    kv ∈ (get_sales st (.month y m)).1 ↔
      kv ∈ st.sales ∧ (monthBounds y m).1 ≤ kv.2.timestamp ∧
        kv.2.timestamp < (monthBounds y m).2 := by
  show kv ∈ List.insertionSort _ (st.sales.filter _) ↔ _
  rw [List.mem_insertionSort, List.mem_filter]
  simp [and_assoc]

/-! ### `add_update_product` key fact -/

theorem getDoc_replace_self {α : Type} {l : Docs α} {k : String} (v : α)
    (h : (getDoc l k).isSome) :
    getDoc (l.map (fun kv => if kv.1 = k then (k, v) else kv)) k = some v := by
  induction l with
  | nil => simp [getDoc] at h
  | cons kv rest ih =>
    by_cases hh : kv.1 = k
    · simp [getDoc, hh]
    · simp only [List.map_cons, if_neg hh]
      rw [show getDoc ((kv :: rest.map (fun kv => if kv.1 = k then (k, v) else kv))) k
          = getDoc (rest.map (fun kv => if kv.1 = k then (k, v) else kv)) k
          from by simp [getDoc, hh]]
      exact ih (by simpa [getDoc, hh] using h)

theorem add_update_product_key {st : State} {n : String} {p : Product} {st0 : State}
    (h : add_update_product st n p = .ok st0) :
    getDoc st0.products (strUpper n) = some { p with item_number := strUpper n } := by
  simp only [add_update_product] at h
  by_cases hk : strUpper n = ""
  · rw [if_pos hk] at h
    exact absurd h (by simp)
  · rw [if_neg hk] at h
    injection h with h
    subst h
    by_cases hex : (getDoc st.products (strUpper n)).isSome
    · simp only [if_pos hex]
      exact getDoc_replace_self _ hex
    · simp only [if_neg hex]
      rw [getDoc_append_of_none _ (by
        cases hg : getDoc st.products (strUpper n) with
        | none => rfl
        | some p0 => rw [hg] at hex; exact absurd rfl hex)]
      simp [getDoc]

/-! ### `record_sale` ignores the client-supplied `import_price` -/

theorem mask_upperKey (it : LineItemIn) (q : Option ℚ) :
    upperKey { it with import_price := q } = upperKey it := rfl

theorem mask_quantity (it : LineItemIn) (q : Option ℚ) :
    ({ it with import_price := q } : LineItemIn).quantity = it.quantity := rfl

theorem mask_storedItem (it : LineItemIn) (q : Option ℚ) (p : Product) :
    storedItem { it with import_price := q } p = storedItem it p := rfl

theorem saleReadLoop_mask {ps : Docs Product} (q : Option ℚ) :
    ∀ (items : List LineItemIn) (out : List LineItem) (staged : Docs Int),
      saleReadLoop ps (items.map (fun it => { it with import_price := q })) out staged
        = saleReadLoop ps items out staged := by
  intro items
  induction items with
  | nil => intro out staged; rfl
  | cons it rest ih =>
    intro out staged
    simp only [List.map_cons, saleReadLoop, mask_upperKey, mask_quantity, mask_storedItem]
    cases hp : getDoc ps (upperKey it) with
    | none => rfl
    | some p =>
      by_cases hq : p.quantity < it.quantity
      · simp [hq]
      · simp only [if_neg hq]
        exact ih _ _

theorem record_sale_mask (st : State) (items : List LineItemIn) (saleId : String)
    (now : ℚ) (q : Option ℚ) :
    record_sale st (items.map (fun it => { it with import_price := q })) saleId now
      = record_sale st items saleId now := by
  cases items with
  | nil => rfl
  | cons it rest =>
    rw [record_sale_nonempty_eq st saleId now (by simp),
      record_sale_nonempty_eq st saleId now (by simp)]
    unfold update_in_transaction
    rw [saleReadLoop_mask]

/-! ### Concrete example data -/

/-- Example product: `quantity 10`, `import_price 5.00`, `selling_price 8.00`. -/
def pA : Product := ⟨"A", "Widget", 10, 5, 8⟩

/-- Store with one product `A` and no sales. -/
def cSt1 : State := ⟨[("A", pA)], []⟩

/-- Two line items of one sale naming the same product `A` (requested 3 and 4). -/
def cItems1 : List LineItemIn := [⟨"A", 3, 8, none⟩, ⟨"A", 4, 8, none⟩]

/-- The state produced by selling `cItems1` against `cSt1` (quantity 10 → 6). -/
def cSt1b : State :=
  ⟨[("A", ⟨"A", "Widget", 6, 5, 8⟩)],
   [("s1", ⟨[⟨"A", 3, 8, 5⟩, ⟨"A", 4, 8, 5⟩], 56, 0⟩)]⟩

/-- Two single-item sales of product `A` (2 then 3 units). -/
def cBatches : List (List LineItemIn × String × ℚ) :=
  [([⟨"A", 2, 8, none⟩], "t1", 0), ([⟨"A", 3, 8, none⟩], "t2", 1)]

/-- The state after running `cBatches` from `cSt1` (quantity 10 → 5). -/
def cSt1c : State :=
  ⟨[("A", ⟨"A", "Widget", 5, 5, 8⟩)],
   [("t1", ⟨[⟨"A", 2, 8, 5⟩], 16, 0⟩), ("t2", ⟨[⟨"A", 3, 8, 5⟩], 24, 1⟩)]⟩

/-- A stored sale referencing product `A`. -/
def cSale2 : Sale := ⟨[⟨"A", 3, 8, 5⟩], 24, 0⟩

/-- Store with product `A` and one sale referencing it. -/
def cSt2 : State := ⟨[("A", pA)], [("s1", cSale2)]⟩

/-- One line item naming a product that does not exist. -/
def cItemsMiss : List LineItemIn := [⟨"b", 1, 8, none⟩]

/-- One line item requesting more than the 10 on hand. -/
def cItemsBig : List LineItemIn := [⟨"A", 11, 8, none⟩]

/-- Example product with quantity 5. -/
def pA5 : Product := ⟨"A", "Widget", 5, 5, 8⟩

/-- Store with one product `A` at quantity 5. -/
def cSt4 : State := ⟨[("A", pA5)], []⟩

/-- A line item with negative requested quantity. -/
def cIt4 : LineItemIn := ⟨"A", -1, 8, none⟩

/-- State after selling `cIt4` against `cSt4` (quantity 5 → 6). -/
def cSt4b : State :=
  ⟨[("A", ⟨"A", "Widget", 6, 5, 8⟩)], [("s1", ⟨[⟨"A", -1, 8, 5⟩], -8, 0⟩)]⟩

/-- State after deleting that sale: the −1 line item is skipped by the restore
loop, so quantity stays 6. -/
def cSt4c : State := ⟨[("A", ⟨"A", "Widget", 6, 5, 8⟩)], []⟩

/-- An ordinary line item: 3 units of `A`. -/
def cItW : LineItemIn := ⟨"A", 3, 8, none⟩

/-- State after selling 3 units of `A` from `cSt1` (quantity 10 → 7). -/
def cStSold7 : State :=
  ⟨[("A", ⟨"A", "Widget", 7, 5, 8⟩)], [("s1", ⟨[⟨"A", 3, 8, 5⟩], 24, 0⟩)]⟩

/-- A line item carrying a forged client `import_price`. -/
def cItems5 : List LineItemIn := [⟨"A", 3, 8, some 999⟩]

/-- Sale timestamped at the first instant of December 2023. -/
def saleDec : Sale := ⟨[], 0, epochYMD 2023 12 1⟩

/-- Sale timestamped at the first instant of January 2024 (excluded bound). -/
def saleJan : Sale := ⟨[], 0, epochYMD 2024 1 1⟩

/-- Sale timestamped in November 2023. -/
def saleNov : Sale := ⟨[], 0, epochYMD 2023 11 30⟩

/-- Store with three sales around the December 2023 month boundary. -/
def cSt8 : State := ⟨[], [("d", saleDec), ("j", saleJan), ("n", saleNov)]⟩

/-- A line item with a lowercase item number. -/
def cIt9 : LineItemIn := ⟨"a", 2, 8, none⟩

/-- State after selling `cIt9` against `cSt1`: product key `A` decremented,
sale line stored with the verbatim `"a"`. -/
def cSt9b : State :=
  ⟨[("A", ⟨"A", "Widget", 8, 5, 8⟩)], [("s1", ⟨[⟨"a", 2, 8, 5⟩], 16, 0⟩)]⟩

/-- A line item with requested quantity −2. -/
def cIt10 : LineItemIn := ⟨"A", -2, 8, none⟩

/-! ### Claims -/

/-- C1 (amended): on a successful RecordSale, a product key untouched by the
sale is unchanged; a touched product key ends at its in-transaction on-hand
quantity minus the requested quantity of the LAST line item of the sale naming
it (duplicate line items for one product overwrite each other in the staged-
update dict), and that final quantity is never negative; when the sale's line
items name pairwise distinct product keys, this equals on-hand minus the sum of
the requested quantities; and over any sequence of successful RecordSale calls
whose individual sales have pairwise distinct keys, a product's quantity equals
its initial quantity minus the total quantity sold. -/
theorem record_sale_stock_update_spec :
    (∀ (st : State) (items : List LineItemIn) (saleId : String) (now : ℚ) (st' : State),
      record_sale st items saleId now = .ok st' →
      (∀ k, lastTouch items k = none → getDoc st'.products k = getDoc st.products k) ∧
      (∀ k itL, lastTouch items k = some itL →
        ∃ p, getDoc st.products k = some p ∧
          getDoc st'.products k = some { p with quantity := p.quantity - itL.quantity } ∧
          0 ≤ p.quantity - itL.quantity) ∧
      ((items.map upperKey).Nodup →
        ∀ k p, getDoc st.products k = some p →
          getDoc st'.products k = some { p with quantity := p.quantity - sumReq items k })) ∧
    (∀ (batches : List (List LineItemIn × String × ℚ)) (st st' : State),
      runSales st batches = .ok st' →
      (∀ b ∈ batches, (b.1.map upperKey).Nodup) →
      ∀ k p, getDoc st.products k = some p →
        getDoc st'.products k = some { p with quantity := p.quantity - soldTotal batches k }) := by
  constructor
  · intro st items saleId now st' h
    refine ⟨?_, ?_, ?_⟩
    · intro k hlt
      have hp := record_sale_ok_products h k
      simp only [hlt] at hp
      exact hp
    · intro k itL hlt
      have hp := record_sale_ok_products h k
      simp only [hlt] at hp
      obtain ⟨hm, hu⟩ := lastTouch_some_mem hlt
      obtain ⟨p, hp0, hq⟩ := record_sale_ok_valid h itL hm
      rw [hu] at hp0
      refine ⟨p, hp0, ?_, by omega⟩
      rw [hp, hp0]
      rfl
    · intro hND k p hp
      rw [record_sale_ok_products_nodup h hND k, hp]
      rfl
  · intro batches st st' h hND k p hp
    rw [runSales_ok_products h hND k, hp]
    rfl

/-- C1 counterexample: a sale with two line items for the same product `A`
(quantities 3 and 4 against 10 on hand) succeeds and leaves quantity 6
(10 − 4, the last line item), not 10 − 7 = 3 as the claim's per-product sum
would require. -/
theorem record_sale_duplicate_items_cex :
    record_sale cSt1 cItems1 "s1" 0 = .ok cSt1b ∧
    getDoc cSt1.products "A" = some pA ∧ pA.quantity = 10 ∧
    sumReq cItems1 "A" = 7 ∧
    getDoc cSt1b.products "A" = some { pA with quantity := 6 } ∧
    (6 : Int) ≠ 10 - 7 := by with_unfolding_all decide

/-- C1 witness. -/
theorem record_sale_stock_update_spec_witness :
    (∃ p, getDoc cSt1.products "A" = some p ∧
      getDoc cSt1b.products "A" = some { p with quantity := p.quantity - 4 } ∧
      0 ≤ p.quantity - 4) ∧
    getDoc cSt1c.products "A"
      = some { pA with quantity := pA.quantity - soldTotal cBatches "A" } :=
  ⟨(record_sale_stock_update_spec.1 cSt1 cItems1 "s1" 0 cSt1b (by with_unfolding_all decide)).2.1 "A"
      ⟨"A", 4, 8, none⟩ (by with_unfolding_all decide),
    record_sale_stock_update_spec.2 cBatches cSt1 cSt1c (by with_unfolding_all decide) (by with_unfolding_all decide) "A" pA
      (by with_unfolding_all decide)⟩

/-- C2 (code bug): `delete_product`'s `array_contains {'item_number': key}`
filter requires a whole-map match, but every stored line item also carries
`quantity`, `selling_price` and `import_price`, so no sale ever matches: here
`DeleteProduct("A")` removes the product but leaves the sale whose line item
references `"A"` untouched, contradicting the cascade-delete claim. -/
theorem delete_product_keeps_referencing_sales :
    getDoc cSt2.sales "s1" = some cSale2 ∧
    (∃ it0 ∈ cSale2.items, it0.item_number = "A") ∧
    delete_product cSt2 "A" = .ok ⟨[], cSt2.sales⟩ := by with_unfolding_all decide

/-- C3: an empty items list fails with the validation error; a missing product
or insufficient stock in some line item makes the whole call fail; a not-found
failure names the (uppercased) item number of a line item whose product is
absent; an insufficient-stock failure names the `item_name` of a product with
on-hand less than requested; and every failure leaves the store state exactly
as it was (no product update, no sale document). -/
theorem record_sale_error_spec :
    ∀ (st : State) (items : List LineItemIn) (saleId : String) (now : ℚ),
      (items = [] → record_sale_api st items saleId now = (st, some .validation)) ∧
      ((∃ it ∈ items, getDoc st.products (upperKey it) = none ∨
          ∃ p, getDoc st.products (upperKey it) = some p ∧ p.quantity < it.quantity) →
        ∃ e, record_sale_api st items saleId now = (st, some e)) ∧
      (∀ n, record_sale st items saleId now = .error (.notFound n) →
        ∃ it ∈ items, n = upperKey it ∧ getDoc st.products n = none) ∧
      (∀ nm, record_sale st items saleId now = .error (.insufficientStock nm) →
        ∃ it ∈ items, ∃ p, getDoc st.products (upperKey it) = some p ∧
          p.quantity < it.quantity ∧ nm = p.item_name) ∧
      (∀ e, record_sale st items saleId now = .error e →
        record_sale_api st items saleId now = (st, some e)) := by
  intro st items saleId now
  refine ⟨?_, ?_, ?_, ?_, ?_⟩
  · intro he
    subst he
    simp [record_sale_api, record_sale_empty_eq]
  · rintro ⟨it, hit, hbad⟩
    cases hres : record_sale st items saleId now with
    | error e => exact ⟨e, by simp [record_sale_api, hres]⟩
    | ok st' =>
      obtain ⟨p, hp, hq⟩ := record_sale_ok_valid hres it hit
      rcases hbad with hnone | ⟨p', hp', hq'⟩
      · rw [hp] at hnone
        exact absurd hnone (by simp)
      · rw [hp] at hp'
        injection hp' with hp'
        subst hp'
        exact absurd hq' hq
  · intro n h
    by_cases hne : items = []
    · subst hne
      rw [record_sale_empty_eq] at h
      exact absurd h (by simp)
    · obtain ⟨it, hit, hcase⟩ := record_sale_error_cases h hne
      rcases hcase with ⟨he, hnone⟩ | ⟨p, _, _, he⟩
      · injection he with he
        exact ⟨it, hit, he, by rw [he]; exact hnone⟩
      · exact absurd he (by simp)
  · intro nm h
    by_cases hne : items = []
    · subst hne
      rw [record_sale_empty_eq] at h
      exact absurd h (by simp)
    · obtain ⟨it, hit, hcase⟩ := record_sale_error_cases h hne
      rcases hcase with ⟨he, _⟩ | ⟨p, hp, hq, he⟩
      · exact absurd he (by simp)
      · injection he with he
        exact ⟨it, hit, p, hp, hq, he⟩
  · intro e h
    simp [record_sale_api, h]

/-- C3 witness. -/
theorem record_sale_error_spec_witness :
    record_sale_api cSt1 [] "s1" 0 = (cSt1, some .validation) ∧
    (∃ it ∈ cItemsMiss, "B" = upperKey it ∧ getDoc cSt1.products "B" = none) ∧
    (∃ it ∈ cItemsBig, ∃ p, getDoc cSt1.products (upperKey it) = some p ∧
      p.quantity < it.quantity ∧ "Widget" = p.item_name) :=
  ⟨(record_sale_error_spec cSt1 [] "s1" 0).1 rfl,
   (record_sale_error_spec cSt1 cItemsMiss "s1" 0).2.2.1 "B" (by with_unfolding_all decide),
   (record_sale_error_spec cSt1 cItemsBig "s1" 0).2.2.2.1 "Widget" (by with_unfolding_all decide)⟩

/-- C4 counterexample: RecordSale accepts a line item with quantity −1 against
a quantity-5 product (the stock check passes), raising the stock to 6; but
DeleteSale skips line items with `quantity ≤ 0`, so after the round trip the
quantity is 6, not the pre-sale 5. -/
theorem record_then_delete_cex :
    record_sale cSt4 [cIt4] "s1" 0 = .ok cSt4b ∧
    restore_stock_and_delete_sale cSt4b "s1" = .ok cSt4c ∧
    getDoc cSt4.products "A" = some pA5 ∧ pA5.quantity = 5 ∧
    getDoc cSt4c.products "A" = some ⟨"A", "Widget", 6, 5, 8⟩ ∧
    ((6 : Int) ≠ 5) := by with_unfolding_all decide

/-- C4 (amended): RecordSale followed by DeleteSale on the sale it created
restores every product's quantity to its pre-sale value and removes the sale,
provided every line item has positive quantity, a nonempty item number already
in uppercase form, the line items name pairwise distinct products, and the sale
id is fresh. -/
theorem record_then_delete_restores :
    ∀ (st : State) (items : List LineItemIn) (saleId : String) (now : ℚ) (st1 : State),
      record_sale st items saleId now = .ok st1 →
      (items.map upperKey).Nodup →
      (∀ it ∈ items, strUpper it.item_number = it.item_number ∧ it.item_number ≠ "" ∧
        0 < it.quantity) →
      getDoc st.sales saleId = none →
      ∃ st2, restore_stock_and_delete_sale st1 saleId = .ok st2 ∧
        (∀ k, getDoc st2.products k = getDoc st.products k) ∧
        st2.sales = st.sales := by
  intro st items saleId now st1 h hND hcond hfresh
  obtain ⟨t, hsales⟩ := record_sale_ok_sales h
  have hlookup : getDoc st1.sales saleId
      = some ⟨items.map (storedOf st.products), t, now⟩ := by
    rw [hsales, getDoc_append_of_none _ hfresh]
    simp [getDoc]
  have hv : ∀ sit ∈ items.map (storedOf st.products),
      sit.item_number ≠ "" ∧ 0 < sit.quantity →
      (getDoc st1.products sit.item_number).isSome := by
    intro sit hsit _
    obtain ⟨it0, hit0, rfl⟩ := List.mem_map.mp hsit
    rw [storedOf_item_number]
    obtain ⟨p, hp, _⟩ := record_sale_ok_valid h it0 hit0
    have hup := (hcond it0 hit0).1
    rw [record_sale_ok_products_nodup h hND it0.item_number]
    rw [show upperKey it0 = it0.item_number from hup] at hp
    rw [hp]
    rfl
  obtain ⟨ps2, hps2⟩ := @restoreLoop_total (items.map (storedOf st.products))
    st1.products hv
  refine ⟨⟨ps2, st1.sales.filter (fun kv => kv.1 != saleId)⟩,
    restore_eq_of_found hlookup hps2, ?_, ?_⟩
  · intro k
    show getDoc ps2 k = getDoc st.products k
    rw [restoreLoop_ok_getDoc hps2 k, record_sale_ok_products_nodup h hND k,
      incSum_storedOf (fun it' hit' => hcond it' hit')]
    cases hg : getDoc st.products k with
    | none => rfl
    | some p => simp [Product.mk.injEq]
  · show st1.sales.filter _ = st.sales
    rw [hsales, List.filter_append, filter_bne_of_getDoc_none hfresh]
    simp

/-- C4 witness: product `A` starts at quantity 10; selling 3 then deleting the
sale restores quantity 10 and removes the sale. -/
theorem record_then_delete_restores_witness :
    ∃ st2, restore_stock_and_delete_sale cStSold7 "s1" = .ok st2 ∧
      (∀ k, getDoc st2.products k = getDoc cSt1.products k) ∧
      st2.sales = cSt1.sales :=
  record_then_delete_restores cSt1 [cItW] "s1" 0 cStSold7 (by with_unfolding_all decide) (by with_unfolding_all decide)
    (by with_unfolding_all decide) (by with_unfolding_all decide)

/-- C5: the sale document stored by a successful RecordSale keeps the line
items in order, each with `import_price` equal to the `import_price` of the
product read inside the transaction; and the result of RecordSale is entirely
independent of any client-supplied `import_price` values. -/
theorem record_sale_import_price_snapshot :
    ∀ (st : State) (items : List LineItemIn) (saleId : String) (now : ℚ) (st' : State),
      record_sale st items saleId now = .ok st' →
      (∃ t, st'.sales = st.sales ++
        [(saleId, ⟨items.map (storedOf st.products), t, now⟩)]) ∧
      (∀ pr ∈ items.zip (items.map (storedOf st.products)),
        ∃ p, getDoc st.products (upperKey pr.1) = some p ∧
          pr.2.import_price = p.import_price) ∧
      (∀ q, record_sale st (items.map (fun it => { it with import_price := q })) saleId now
        = record_sale st items saleId now) := by
  intro st items saleId now st' h
  refine ⟨record_sale_ok_sales h, ?_, fun q => record_sale_mask st items saleId now q⟩
  have hzip : items.zip (items.map (storedOf st.products))
      = items.map (fun a => (id a, storedOf st.products a)) := by
    have h0 := List.zip_map' id (storedOf st.products) items
    rw [List.map_id] at h0
    exact h0
  intro pr hpr
  rw [hzip] at hpr
  obtain ⟨it0, hit0, rfl⟩ := List.mem_map.mp hpr
  obtain ⟨p, hp, _⟩ := record_sale_ok_valid h it0 hit0
  refine ⟨p, hp, ?_⟩
  show (storedOf st.products it0).import_price = p.import_price
  simp [storedOf, hp, storedItem]

/-- C5 witness: a client-supplied `import_price` of 999 is replaced by the
product's stored 5. -/
theorem record_sale_import_price_snapshot_witness :
    (∃ t, cStSold7.sales = cSt1.sales ++
      [("s1", ⟨cItems5.map (storedOf cSt1.products), t, 0⟩)]) ∧
    (∀ pr ∈ cItems5.zip (cItems5.map (storedOf cSt1.products)),
      ∃ p, getDoc cSt1.products (upperKey pr.1) = some p ∧
        pr.2.import_price = p.import_price) ∧
    (∀ q, record_sale cSt1 (cItems5.map (fun it => { it with import_price := q })) "s1" 0
      = record_sale cSt1 cItems5 "s1" 0) :=
  record_sale_import_price_snapshot cSt1 cItems5 "s1" 0 cStSold7 (by with_unfolding_all decide)

/-- C6 counterexample: deleting a product that never existed succeeds (returns
ok on the empty store), so DeleteProduct does not fail with NotFoundError when
the product never existed. -/
theorem delete_product_missing_succeeds_cex :
    getDoc (⟨[], []⟩ : State).products "A" = none ∧
    delete_product (⟨[], []⟩ : State) "A" = .ok ⟨[], []⟩ := by with_unfolding_all decide

/-- C6 (amended): `delete_product` never fails — the route performs no
existence check before the transaction (the `product_doc.exists` test only
gates image cleanup) and Firestore's document delete is a no-op on a missing
document; in particular a product with zero referencing sales is deleted
without error.  The resulting state has the product document removed and the
sales collection unchanged. -/
theorem delete_product_never_fails :
    ∀ (st : State) (n : String), ∃ st', delete_product st n = .ok st' ∧
      getDoc st'.products (strUpper n) = none ∧ st'.sales = st.sales := by
  intro st n
  exact ⟨_, delete_product_eq st n, getDoc_filter_self _ _, rfl⟩

/-- C7: the `total_profit` returned by ListSales equals the sum of
`(selling_price - import_price) * quantity` over all line items of the
returned sales, recomputed from the returned list (the model stores no profit
field anywhere). -/
theorem get_sales_profit_recomputed :
    ∀ (st : State) (f : SalesFilter),
      (get_sales st f).2 = specTotalProfit (get_sales st f).1 := by
  intro st f
  cases f <;> exact profitFold_eq_spec _

/-- C8: the month filter returns exactly the sales with timestamp in
`[start_of_month, start_of_next_month)`; for December the upper bound is
January 1 of the following year. -/
theorem get_sales_month_range_exact :
    ∀ (st : State) (y m : Nat) (kv : String × Sale),
      (kv ∈ (get_sales st (.month y m)).1 ↔
        kv ∈ st.sales ∧ epochYMD y m 1 ≤ kv.2.timestamp ∧
          kv.2.timestamp < epochYMD (if m = 12 then y + 1 else y)
            (if m = 12 then 1 else m + 1) 1) ∧
      (m = 12 →
        (kv ∈ (get_sales st (.month y m)).1 ↔
          kv ∈ st.sales ∧ epochYMD y 12 1 ≤ kv.2.timestamp ∧
            kv.2.timestamp < epochYMD (y + 1) 1 1)) := by
  intro st y m kv
  constructor
  · exact get_sales_month_mem st y m kv
  · intro hm
    subst hm
    simpa using get_sales_month_mem st y 12 kv

/-- C8 witness: December 2023 includes the sale at Dec 1 00:00 and the bound
is Jan 1 2024 00:00. -/
theorem get_sales_month_range_exact_witness :
    ("d", saleDec) ∈ (get_sales cSt8 (.month 2023 12)).1 ↔
      ("d", saleDec) ∈ cSt8.sales ∧ epochYMD 2023 12 1 ≤ saleDec.timestamp ∧
        saleDec.timestamp < epochYMD 2024 1 1 :=
  (get_sales_month_range_exact cSt8 2023 12 ("d", saleDec)).2 rfl

/-- C9: product documents are keyed by the uppercased item number
(`add_update_product`); a successful RecordSale stores the line item's
item number exactly as supplied while decrementing the uppercased key; and
DeleteSale uses the stored, non-uppercased item number verbatim as the product
key, so for a lowercase client item number the restore targets a different
document key (absent here), which makes the delete-sale transaction fail and
leaves the decremented product unrestored. -/
theorem sale_keys_case_mismatch :
    (∀ (st : State) (n : String) (p : Product) (st0 : State),
      add_update_product st n p = .ok st0 →
      getDoc st0.products (strUpper n) = some { p with item_number := strUpper n }) ∧
    (∀ (st : State) (it : LineItemIn) (saleId : String) (now : ℚ) (st1 : State),
      record_sale st [it] saleId now = .ok st1 →
      strUpper it.item_number ≠ it.item_number →
      0 < it.quantity →
      getDoc st.sales saleId = none →
      getDoc st.products it.item_number = none →
      (∃ p t, getDoc st.products (upperKey it) = some p ∧
        getDoc st1.products (upperKey it)
          = some { p with quantity := p.quantity - it.quantity } ∧
        getDoc st1.sales saleId = some ⟨[storedItem it p], t, now⟩) ∧
      getDoc st1.products it.item_number = none ∧
      restore_stock_and_delete_sale st1 saleId = .error .txFailure) := by
  constructor
  · intro st n p st0 h
    exact add_update_product_key h
  · intro st it saleId now st1 h hcase hpos hfresh hmiss
    obtain ⟨p, hp, hq⟩ := record_sale_ok_valid h it (List.mem_cons_self _ _)
    obtain ⟨t, hsales⟩ := record_sale_ok_sales h
    have hstored : [it].map (storedOf st.products) = [storedItem it p] := by
      simp [storedOf, hp]
    have hup : getDoc st1.products (upperKey it)
        = some { p with quantity := p.quantity - it.quantity } := by
      rw [record_sale_ok_products_nodup h (by simp) (upperKey it), hp]
      simp [sumReq]
    have hlt : lastTouch [it] it.item_number = none := by
      simp [lastTouch, upperKey, hcase]
    have hverb : getDoc st1.products it.item_number = none := by
      have h0 := record_sale_ok_products h it.item_number
      simp only [hlt] at h0
      rw [h0, hmiss]
    have hlook : getDoc st1.sales saleId = some ⟨[storedItem it p], t, now⟩ := by
      rw [hsales, getDoc_append_of_none _ hfresh]
      simp [getDoc, hstored]
    have hne : it.item_number ≠ "" := by
      intro h0
      apply hcase
      rw [h0]
      rfl
    refine ⟨⟨p, t, hp, hup, hlook⟩, hverb, ?_⟩
    apply restore_eq_of_loop_error hlook
    show restoreLoop st1.products [storedItem it p] = .error .txFailure
    have hcond : (storedItem it p).item_number ≠ "" ∧ 0 < (storedItem it p).quantity :=
      ⟨hne, hpos⟩
    simp only [restoreLoop, if_pos hcond,
      show getDoc st1.products (storedItem it p).item_number = none from hverb]

/-- C9 witness: selling `"a"` against product `A` decrements `A` to 8, stores
the line with `"a"`, and deleting the sale fails targeting the absent `"a"`. -/
theorem sale_keys_case_mismatch_witness :
    (∃ p t, getDoc cSt1.products (upperKey cIt9) = some p ∧
      getDoc cSt9b.products (upperKey cIt9)
        = some { p with quantity := p.quantity - cIt9.quantity } ∧
      getDoc cSt9b.sales "s1" = some ⟨[storedItem cIt9 p], t, 0⟩) ∧
    getDoc cSt9b.products cIt9.item_number = none ∧
    restore_stock_and_delete_sale cSt9b "s1" = .error .txFailure :=
  sale_keys_case_mismatch.2 cSt1 cIt9 "s1" 0 cSt9b (by with_unfolding_all decide) (by with_unfolding_all decide) (by with_unfolding_all decide)
    (by with_unfolding_all decide) (by with_unfolding_all decide)

/-- C10: RecordSale imposes no positivity requirement on the requested
quantity: a line item with quantity ≤ 0 against a product with non-negative
stock passes the check `on_hand < requested`, the sale is recorded, and the
quantity becomes `on_hand - requested`, which does not decrease the stock. -/
theorem record_sale_accepts_nonpositive_quantity :
    ∀ (st : State) (it : LineItemIn) (saleId : String) (now : ℚ) (p : Product),
      getDoc st.products (upperKey it) = some p →
      it.quantity ≤ 0 → 0 ≤ p.quantity →
      ∃ st', record_sale st [it] saleId now = .ok st' ∧
        getDoc st'.products (upperKey it)
          = some { p with quantity := p.quantity - it.quantity } ∧
        p.quantity ≤ p.quantity - it.quantity ∧
        ∃ t, st'.sales = st.sales ++
          [(saleId, ⟨[it].map (storedOf st.products), t, now⟩)] := by
  intro st it saleId now p hp hq0 hpq
  obtain ⟨st', hok⟩ := @record_sale_ok_of_valid st [it] saleId now (by simp)
    (by
      intro it' hit'
      rcases List.mem_cons.mp hit' with h1 | h2
      · subst h1
        exact ⟨p, hp, by omega⟩
      · simp at h2)
  refine ⟨st', hok, ?_, by omega, record_sale_ok_sales hok⟩
  rw [record_sale_ok_products_nodup hok (by simp) (upperKey it), hp]
  simp [sumReq]

/-- C10 witness: requesting −2 units of the quantity-10 product `A` succeeds
and raises the stock to 12. -/
theorem record_sale_accepts_nonpositive_quantity_witness :
    ∃ st', record_sale cSt1 [cIt10] "s1" 0 = .ok st' ∧
      getDoc st'.products (upperKey cIt10)
        = some { pA with quantity := pA.quantity - cIt10.quantity } ∧
      pA.quantity ≤ pA.quantity - cIt10.quantity ∧
      ∃ t, st'.sales = cSt1.sales ++
        [("s1", ⟨[cIt10].map (storedOf cSt1.products), t, 0⟩)] :=
  record_sale_accepts_nonpositive_quantity cSt1 cIt10 "s1" 0 pA (by with_unfolding_all decide) (by with_unfolding_all decide)
    (by with_unfolding_all decide)

end POS
